import Mathlib

/-!
Verification development for the Thames Water meter integration.

The embedding models `custom_components/thames_water/thameswater.py` and
`custom_components/thames_water/sensor.py`:

* raw numeric values (Python floats such as `Usage` and `Read`) are modelled
  as rationals `ℚ`; Python `int(x)` on such a value truncates toward zero and
  is modelled by `int_trunc`;
* a Python `datetime.date` is modelled by its proleptic ordinal
  (`date.toordinal`), an integer: adding `timedelta(days=1)` is `+ 1` and two
  dates are equal iff their ordinals are; the year-9999 overflow of
  `datetime.date` is abstracted away;
* a naive/aware `datetime.datetime` start value is modelled by `PyDateTime`:
  the civil date ordinal plus an optional time-zone name (`tzinfo`);
* the aware timestamps produced by `naive_dt.replace(tzinfo=tzinfo)` keep
  their civil fields unchanged, so a result timestamp is modelled by
  `HourStart`: civil date ordinal, hour of day, DST `fold` flag and the
  attached zone name (`zoneinfo.ZoneInfo` lookup itself performs no
  arithmetic on the civil fields and is not modelled);
* Python exceptions (`ValueError` raised for an aware start, by `int()` on a
  non-numeric label, or by `datetime(...)` for an hour outside 0..23) abort
  the whole call, modelled by `Except NormalizeError`.
-/

/-- Model of one raw usage row (`Line` dataclass, thameswater.py lines 15-21). -/
structure Line where
  Label : String
  Usage : ℚ
  Read : ℚ
  IsEstimated : Bool
  MeterSerialNumberHis : String
deriving DecidableEq

/-- Model of the consumption-query response (`MeterUsage` dataclass,
thameswater.py lines 24-39).  The untyped `AlertsValues` dict is modelled as
an optional association list. -/
structure MeterUsage where
  IsError : Bool
  IsDataAvailable : Bool
  IsConsumptionAvailable : Bool
  TargetUsage : ℚ
  AverageUsage : ℚ
  ActualUsage : ℚ
  MyUsage : String
  AverageUsagePerPerson : ℚ
  IsMO365Customer : Bool
  IsMOPartialCustomer : Bool
  IsMOCompleteCustomer : Bool
  IsExtraMonthConsumptionMessage : Bool
  Lines : List Line := []
  AlertsValues : Option (List (String × String)) := some []
deriving DecidableEq

/-- Model of the aware timestamp built at thameswater.py lines 321-325:
`datetime.datetime(current_date.year, current_date.month, current_date.day,
hour, fold=fold).replace(tzinfo=tzinfo)`.  `replace` leaves the civil fields
untouched, so the value is fully described by the civil date ordinal, the
hour, the fold flag and the zone name. -/
structure HourStart where
  dateOrd : ℤ
  hour : ℤ
  fold : ℕ
  tz : String
deriving DecidableEq

/-- Model of the `Measurement` dataclass (thameswater.py lines 42-46). -/
structure Measurement where
  hour_start : HourStart
  usage : ℤ
  total : ℤ
deriving DecidableEq

/-- Model of the `start` argument of `meter_usage_lines_to_timeseries`: a
Python `datetime.datetime`, of which the function reads only `start.tzinfo`
(line 285) and `start.date()` (line 289). -/
structure PyDateTime where
  dateOrd : ℤ
  tzinfo : Option String
deriving DecidableEq

/-- The `ValueError`s `meter_usage_lines_to_timeseries` can raise: the
explicit `raise ValueError("start must be naive ...")` at line 286, the
`int()` failure on a non-numeric label at line 295, and the range check of
`datetime.datetime(..., hour, ...)` at line 321 for an hour outside 0..23. -/
inductive NormalizeError
  | startMustBeNaive
  | labelParseError
  | hourOutOfRange
deriving DecidableEq

/-- Truncation toward zero: the effect of Python `int(x)` on a float/number
(thameswater.py lines 329-330). -/
def int_trunc (q : ℚ) : ℤ := if 0 ≤ q then ⌊q⌋ else ⌈q⌉

/-- Decimal digit value of a character, `none` for a non-digit. -/
def digitVal? (c : Char) : Option ℕ :=
  if c.isDigit then some (c.toNat - 48) else none

/-- Parse a nonempty all-digit character list as a natural number. -/
def decDigits? : List Char → Option ℕ
  | [] => none
  | cs =>
    cs.foldl
      (fun acc c =>
        match acc, digitVal? c with
        | some n, some d => some (n * 10 + d)
        | _, _ => none)
      (some 0)

/-- Model of Python `int(s)` on a string: an optional minus sign followed by
decimal digits (surrounding whitespace, an explicit plus sign and digit
group underscores, which Python also tolerates, do not occur in hour
labels and are not modelled). -/
def str_to_int? (cs : List Char) : Option ℤ :=
  match cs with
  | [] => none
  | c :: rest =>
    if c = '-' then (decDigits? rest).map (fun n => -(n : ℤ))
    else (decDigits? (c :: rest)).map (fun n => (n : ℤ))

/-- Model of `int(line.Label.split(":")[0])` (thameswater.py line 295):
`split(":")[0]` is the prefix of the label before the first colon. -/
def parseHourLabel (label : String) : Option ℤ :=
  str_to_int? (label.data.takeWhile (fun c => c != ':'))

/-- Result of one iteration of the branch at thameswater.py lines 298-316:
the updated `current_date`, the `fold` to emit, and the `key` added to
`seen_hours`. -/
structure StepResult where
  current_date : ℤ
  fold : ℕ
  key : ℤ × ℤ
deriving DecidableEq

/-- The branch at thameswater.py lines 298-316, deciding between day
rollover, DST-fallback repeat and the plain in-day case. -/
def normalizeStep (current_date prev_hour : ℤ) (seen_hours : List (ℤ × ℤ))
    (hour : ℤ) : StepResult :=
  if hour ≤ prev_hour then
    if (current_date, hour) ∈ seen_hours then
      -- already seen this (date, hour) combo: genuine rollover if hour is 0,
      -- otherwise the DST fallback repeat
      if hour = 0 then ⟨current_date + 1, 0, (current_date + 1, hour)⟩
      else ⟨current_date, 1, (current_date, hour)⟩
    else
      -- hour went backwards onto a fresh (date, hour): normal day rollover
      ⟨current_date + 1, 0, (current_date + 1, hour)⟩
  else ⟨current_date, 0, (current_date, hour)⟩

/-- The loop of `meter_usage_lines_to_timeseries` (thameswater.py lines
294-331), with the mutable `current_date`, `prev_hour` and `seen_hours`
passed explicitly.  The `seen_hours` set is modelled as a list used only
through membership.  A parse failure or an hour outside the range accepted
by `datetime.datetime` raises, aborting the whole call, so the position of
the range check inside the iteration is immaterial to the result. -/
def linesToMeasurements (tz : String) :
    List Line → ℤ → ℤ → List (ℤ × ℤ) → Except NormalizeError (List Measurement)
  | [], _, _, _ => .ok []
  | line :: rest, current_date, prev_hour, seen_hours =>
    match parseHourLabel line.Label with
    | none => .error .labelParseError
    | some hour =>
      if 0 ≤ hour ∧ hour ≤ 23 then
        let r := normalizeStep current_date prev_hour seen_hours hour
        match linesToMeasurements tz rest r.current_date hour (r.key :: seen_hours) with
        | .error e => .error e
        | .ok ms =>
          .ok ({ hour_start := ⟨r.current_date, hour, r.fold, tz⟩,
                 usage := int_trunc line.Usage,
                 total := int_trunc line.Read } :: ms)
      else .error .hourOutOfRange

/-- Model of `meter_usage_lines_to_timeseries` (thameswater.py lines
275-333): reject an aware start, then run the loop from `start.date()`,
`prev_hour = -1` and an empty `seen_hours` set. -/
def meter_usage_lines_to_timeseries (start : PyDateTime) (lines : List Line)
    (tz : String := "Europe/London") : Except NormalizeError (List Measurement) :=
  if start.tzinfo.isSome then .error .startMustBeNaive
  else linesToMeasurements tz lines start.dateOrd (-1) []

/-- The loop state of `meter_usage_lines_to_timeseries`: the values of
`current_date`, `prev_hour` and `seen_hours` between iterations. -/
structure NormState where
  current_date : ℤ
  prev_hour : ℤ
  seen_hours : List (ℤ × ℤ)
deriving DecidableEq

/-- The state at the top of the loop (thameswater.py lines 289-291). -/
def startState (start : PyDateTime) : NormState := ⟨start.dateOrd, -1, []⟩

/-- State update performed by one loop iteration for a parsed hour. -/
def normStep (st : NormState) (hour : ℤ) : NormState :=
  let r := normalizeStep st.current_date st.prev_hour st.seen_hours hour
  ⟨r.current_date, hour, r.key :: st.seen_hours⟩

/-- State after processing a list of parsed hours. -/
def normStates (st : NormState) (hs : List ℤ) : NormState := hs.foldl normStep st

/-- The fold emitted for a parsed hour from a given loop state. -/
def stepFold (st : NormState) (hour : ℤ) : ℕ :=
  (normalizeStep st.current_date st.prev_hour st.seen_hours hour).fold

/-- The measurement emitted by one loop iteration for a parsed hour. -/
def emitAt (st : NormState) (tz : String) (hour : ℤ) (line : Line) : Measurement :=
  let r := normalizeStep st.current_date st.prev_hour st.seen_hours hour
  ⟨⟨r.current_date, hour, r.fold, tz⟩, int_trunc line.Usage, int_trunc line.Read⟩

/-- Parsed, range-checked hour of one row: the value `int(Label.split(":")[0])`
when it is a valid `datetime` hour. -/
def lineHour? (line : Line) : Option ℤ :=
  match parseHourLabel line.Label with
  | some h => if 0 ≤ h ∧ h ≤ 23 then some h else none
  | none => none

/-- Parsed, range-checked hours of all rows; `none` if any row would raise. -/
def lineHours? : List Line → Option (List ℤ)
  | [] => some []
  | line :: rest =>
    match lineHour? line, lineHours? rest with
    | some h, some hs => some (h :: hs)
    | _, _ => none

/-- The successful run of the loop, written as a total function over the
parsed hours: each row contributes `emitAt` of the state reached so far. -/
def emitList (st : NormState) (tz : String) : List ℤ → List Line → List Measurement
  | hour :: hs, line :: rest => emitAt st tz hour line :: emitList (normStep st hour) tz hs rest
  | _, _ => []

/-- Wall-clock order of two result timestamps carrying the same zone:
lexicographic on civil date, hour of day and fold.  For timestamps that
exist on the wall clock of the attached zone this is exactly the order of
the underlying instants (the fold flag orders the two occurrences of an
ambiguous hour during a DST fallback). -/
def hourStartLt (a b : HourStart) : Prop :=
  a.dateOrd < b.dateOrd ∨
    (a.dateOrd = b.dateOrd ∧
      (a.hour < b.hour ∨ (a.hour = b.hour ∧ a.fold < b.fold)))

instance (a b : HourStart) : Decidable (hourStartLt a b) := by
  unfold hourStartLt
  infer_instance

/-- Model of one external-statistics record (sensor.py lines 83-87): a
`StatisticData(start=..., state=..., sum=...)` entry. -/
structure StatisticData where
  start : HourStart
  state : ℚ
  sum : ℚ
deriving DecidableEq

/-- Model of `_generate_statistics_from_meter_usage` (sensor.py lines
78-90): one record per measurement, with `state` the incremental usage and
`sum` the cumulative total minus the externally supplied initial reading.
The parameter is annotated `date` in the source but every caller passes a
`datetime`, which is what `meter_usage_lines_to_timeseries` requires, so it
is modelled as `PyDateTime`. -/
def _generate_statistics_from_meter_usage (start : PyDateTime)
    (meter_usage : MeterUsage) (initial_reading : ℚ) :
    Except NormalizeError (List StatisticData) :=
  (meter_usage_lines_to_timeseries start meter_usage.Lines).map
    (fun ms => ms.map fun m =>
      ⟨m.hour_start, (m.usage : ℚ), (m.total : ℚ) - initial_reading⟩)

/-- Model of the cost projection in `ThamesWaterSensor.async_update`
(sensor.py lines 206-208): every generated record is scaled by the unit
cost per litre, state and sum alike, keeping the timestamps. -/
def cost_statistics (stats : List StatisticData) (cost_per_litre : ℚ) :
    List StatisticData :=
  stats.map fun s => ⟨s.start, s.state * cost_per_litre, s.sum * cost_per_litre⟩

/-- The stages of the login protocol, in the order `_authenticate_sync`
(thameswater.py lines 205-221) drives them: PKCE generation, the authorize
request, the SelfAsserted credential POST, the confirm redirect, the token
exchange, the token refresh and the final dashboard/cookie walk. -/
inductive AuthStage
  | generatePKCE
  | authorize
  | selfAsserted
  | confirmed
  | tokenExchange
  | tokenRefresh
  | establishSiteSession
deriving DecidableEq

/-- The fields of a `ThamesWater` object that the login stages mutate
(thameswater.py lines 61-62, 64-68, 163, 187, 220-221).  A fresh object
has everything unset and `_authenticated = False`. -/
structure AuthState where
  pkce_verifier : Option String := none
  pkce_challenge : Option String := none
  oauth_request_tokens : Option String := none
  oauth_response_tokens : Option String := none
  b2cAuthenticatedCookie : Bool := false
  _authenticated : Bool := false
deriving DecidableEq

/-- Oracle for the portal's behaviour during one authentication run.  Each
field is the outcome of the corresponding HTTP exchange of a stage:
`none`/`false` means the stage raises (a non-success status via
`raise_for_status`, a missing session cookie, a fragment without a `code`,
or a malformed token payload), which aborts `_authenticate_sync` because no
stage catches exceptions.  Later stages consume the data produced by
earlier ones, mirroring the sequential cookie/token dependencies. -/
structure AuthEnv where
  pkce_verifier : String
  pkce_challenge : String
  authorize_cookies : Option (String × String)
  self_asserted_ok : String → String → Bool
  confirmed_code : String → String → Option String
  token_exchange : String → Option String
  token_refresh : String → Option String
  site_session_ok : Bool

/-- Model of `_authenticate_sync` (thameswater.py lines 205-221).  Returns
the object state after the run, the list of stages that were attempted (a
stage is attempted when its HTTP request is issued), and whether the run
reached the end.  `_authenticated` is assigned only by the final statement
of the method, after every stage has succeeded; an exception propagates out
of the method, leaving `_authenticated` untouched. -/
def _authenticate_sync (env : AuthEnv) (s : AuthState) :
    AuthState × List AuthStage × Bool :=
  let s1 : AuthState :=
    { s with pkce_verifier := some env.pkce_verifier,
             pkce_challenge := some env.pkce_challenge }
  match env.authorize_cookies with
  | none => (s1, [.generatePKCE, .authorize], false)
  | some (trans_token, csrf_token) =>
    if env.self_asserted_ok trans_token csrf_token = false then
      (s1, [.generatePKCE, .authorize, .selfAsserted], false)
    else
      match env.confirmed_code trans_token csrf_token with
      | none => (s1, [.generatePKCE, .authorize, .selfAsserted, .confirmed], false)
      | some confirmation_code =>
        match env.token_exchange confirmation_code with
        | none =>
          (s1, [.generatePKCE, .authorize, .selfAsserted, .confirmed,
                .tokenExchange], false)
        | some request_tokens =>
          let s2 : AuthState := { s1 with oauth_request_tokens := some request_tokens }
          match env.token_refresh request_tokens with
          | none =>
            (s2, [.generatePKCE, .authorize, .selfAsserted, .confirmed,
                  .tokenExchange, .tokenRefresh], false)
          | some response_tokens =>
            let s3 : AuthState :=
              { s2 with oauth_response_tokens := some response_tokens }
            if env.site_session_ok = false then
              (s3, [.generatePKCE, .authorize, .selfAsserted, .confirmed,
                    .tokenExchange, .tokenRefresh, .establishSiteSession], false)
            else
              ({ s3 with b2cAuthenticatedCookie := true, _authenticated := true },
               [.generatePKCE, .authorize, .selfAsserted, .confirmed,
                .tokenExchange, .tokenRefresh, .establishSiteSession], true)

/-- Model of the authentication guard of `get_meter_usage` (thameswater.py
lines 267-269): the login state machine is driven only when the object is
not yet authenticated, and always from its first stage. -/
def get_meter_usage_auth (env : AuthEnv) (s : AuthState) :
    AuthState × List AuthStage × Bool :=
  if s._authenticated then (s, [], true) else _authenticate_sync env s

/-- Row `i` immediately repeats the previous row's label at the same parsed
hour `h > 0` (the shape of a DST-fallback repeat in the raw data). -/
def isImmediateRepeat (lines : List Line) (i : ℕ) : Bool :=
  if i = 0 then false
  else
    match lines[i - 1]?, lines[i]? with
    | some a, some b =>
      match lineHour? a, lineHour? b with
      | some ha, some hb => ha == hb && decide (0 < hb)
      | _, _ => false
    | _, _ => false

/-- Claim C1 as stated: an immediate repeat of an hour label `h > 0` is
resolved as fold 0 then fold 1 on the same civil date and hour, and every
row that is not the second of such a repeat is emitted with fold 0. -/
def C1Statement : Prop :=
  ∀ (start : PyDateTime) (lines : List Line) (ms : List Measurement),
    meter_usage_lines_to_timeseries start lines = .ok ms →
    ∀ (i : ℕ) (m : Measurement), ms[i]? = some m →
      (isImmediateRepeat lines i = true →
        ∃ m', ms[i - 1]? = some m' ∧
          m'.hour_start.fold = 0 ∧ m.hour_start.fold = 1 ∧
          m.hour_start.dateOrd = m'.hour_start.dateOrd ∧
          m.hour_start.hour = m'.hour_start.hour) ∧
      (isImmediateRepeat lines i = false → m.hour_start.fold = 0)

/-- Claim C4 as stated: on any accepted input whose raw cumulative reads do
not decrease, the outputs are non-decreasing in `total` and strictly
increasing in wall-clock order. -/
def C4Statement : Prop :=
  ∀ (start : PyDateTime) (lines : List Line) (ms : List Measurement),
    meter_usage_lines_to_timeseries start lines = .ok ms →
    (∀ (i : ℕ) (hi : i < lines.length - 1),
      (lines.get ⟨i, by omega⟩).Read ≤ (lines.get ⟨i + 1, by omega⟩).Read) →
    ∀ (i : ℕ) (m m' : Measurement), ms[i]? = some m → ms[i + 1]? = some m' →
      m.total ≤ m'.total ∧ hourStartLt m.hour_start m'.hour_start

/-- Claim C8 as stated: each cost record equals the measurement's usage and
cumulative total scaled by the unit cost. -/
def C8Statement : Prop :=
  ∀ (start : PyDateTime) (mu : MeterUsage) (initial_reading cost : ℚ)
    (stats : List StatisticData) (ms : List Measurement),
    _generate_statistics_from_meter_usage start mu initial_reading = .ok stats →
    meter_usage_lines_to_timeseries start mu.Lines = .ok ms →
    ∀ (i : ℕ) (m : Measurement) (s : StatisticData),
      ms[i]? = some m → (cost_statistics stats cost)[i]? = some s →
      s.state = (m.usage : ℚ) * cost ∧ s.sum = (m.total : ℚ) * cost

/-- A naive start value used by the concrete scenarios (the civil date
ordinal is irrelevant to what they check, so it is 0). -/
def wStart0 : PyDateTime := ⟨0, none⟩

/-- Rows of three consecutive hours on one day. -/
def wLinesTri : List Line :=
  [⟨"0:00", 2, 100, false, "M"⟩, ⟨"1:00", 3, 103, false, "M"⟩,
   ⟨"2:00", 1, 104, false, "M"⟩]

/-- Expected measurements for `wLinesTri`. -/
def wMsTri : List Measurement :=
  [⟨⟨0, 0, 0, "Europe/London"⟩, 2, 100⟩, ⟨⟨0, 1, 0, "Europe/London"⟩, 3, 103⟩,
   ⟨⟨0, 2, 0, "Europe/London"⟩, 1, 104⟩]

/-- Rows with the spring-forward gap: 0:00 jumps straight to 2:00. -/
def wLinesGap : List Line :=
  [⟨"0:00", 1, 400, false, "M"⟩, ⟨"2:00", 1, 401, false, "M"⟩,
   ⟨"3:00", 1, 402, false, "M"⟩]

/-- Expected measurements for `wLinesGap`. -/
def wMsGap : List Measurement :=
  [⟨⟨0, 0, 0, "Europe/London"⟩, 1, 400⟩, ⟨⟨0, 2, 0, "Europe/London"⟩, 1, 401⟩,
   ⟨⟨0, 3, 0, "Europe/London"⟩, 1, 402⟩]

/-- Rows with a DST-fallback repeat of 1:00. -/
def wLinesDst : List Line :=
  [⟨"0:00", 1, 500, false, "M"⟩, ⟨"1:00", 1, 501, false, "M"⟩,
   ⟨"1:00", 1, 502, false, "M"⟩, ⟨"2:00", 1, 503, false, "M"⟩]

/-- Expected measurements for `wLinesDst`: the repeated 1:00 gets fold 1. -/
def wMsDst : List Measurement :=
  [⟨⟨0, 0, 0, "Europe/London"⟩, 1, 500⟩, ⟨⟨0, 1, 0, "Europe/London"⟩, 1, 501⟩,
   ⟨⟨0, 1, 1, "Europe/London"⟩, 1, 502⟩, ⟨⟨0, 2, 0, "Europe/London"⟩, 1, 503⟩]

/-- Rows where an hour goes backwards onto an already-seen hour without
immediately repeating the previous label: 1:00, 2:00, 1:00. -/
def wLinesBack : List Line :=
  [⟨"1:00", 1, 1, false, "M"⟩, ⟨"2:00", 1, 2, false, "M"⟩,
   ⟨"1:00", 1, 3, false, "M"⟩]

/-- Measurements for `wLinesBack`: the final 1:00 is emitted with fold 1. -/
def wMsBack : List Measurement :=
  [⟨⟨0, 1, 0, "Europe/London"⟩, 1, 1⟩, ⟨⟨0, 2, 0, "Europe/London"⟩, 1, 2⟩,
   ⟨⟨0, 1, 1, "Europe/London"⟩, 1, 3⟩]

/-- Rows repeating the same label 1:00 three times with increasing reads. -/
def wLinesTriple : List Line :=
  [⟨"1:00", 1, 1, false, "M"⟩, ⟨"1:00", 1, 2, false, "M"⟩,
   ⟨"1:00", 1, 3, false, "M"⟩]

/-- Measurements for `wLinesTriple`: the second and third rows are emitted
with the same civil date, hour and fold. -/
def wMsTriple : List Measurement :=
  [⟨⟨0, 1, 0, "Europe/London"⟩, 1, 1⟩, ⟨⟨0, 1, 1, "Europe/London"⟩, 1, 2⟩,
   ⟨⟨0, 1, 1, "Europe/London"⟩, 1, 3⟩]

/-- Rows with a midnight rollover: 23:00 then 0:00. -/
def wLinesRoll : List Line :=
  [⟨"23:00", 1, 200, false, "M"⟩, ⟨"0:00", 1, 205, false, "M"⟩]

/-- Measurements for `wLinesRoll`: the civil date advances by one day. -/
def wMsRoll : List Measurement :=
  [⟨⟨0, 23, 0, "Europe/London"⟩, 1, 200⟩, ⟨⟨1, 0, 0, "Europe/London"⟩, 1, 205⟩]

/-- A single row with fractional raw usage 3.7 and read 100.9. -/
def wLineFrac : Line := ⟨"5:00", 37 / 10, 1009 / 10, false, "M"⟩

/-- A meter-usage result wrapping the given rows, with the irrelevant
response fields fixed. -/
def mkMeterUsage (ls : List Line) : MeterUsage :=
  ⟨false, true, true, 0, 0, 0, "0", 0, false, false, false, false, ls, some []⟩

/-- The three-row scenario of claim C7 with reads 1002, 1005, 1006. -/
def wMuTri : MeterUsage :=
  mkMeterUsage
    [⟨"0:00", 2, 1002, false, "M"⟩, ⟨"1:00", 3, 1005, false, "M"⟩,
     ⟨"2:00", 1, 1006, false, "M"⟩]

/-- The single-row scenario of claims C7 and C8: usage 10, read 500. -/
def wMuSingle : MeterUsage :=
  mkMeterUsage [⟨"5:00", 10, 500, false, "M"⟩]

/-- A portal oracle whose SelfAsserted stage rejects the credentials and
whose later stages would all fail as well. -/
def wAuthEnv : AuthEnv :=
  ⟨"verifier", "challenge", some ("trans", "csrf"), fun _ _ => false,
   fun _ _ => none, fun _ => none, fun _ => none, false⟩

theorem normalizeStep_of_lt (d p : ℤ) (seen : List (ℤ × ℤ)) (hour : ℤ)
    (h : p < hour) : normalizeStep d p seen hour = ⟨d, 0, (d, hour)⟩ := by
  unfold normalizeStep
  rw [if_neg (by omega)]

theorem normalizeStep_of_zero (d p : ℤ) (seen : List (ℤ × ℤ))
    (hp : (0 : ℤ) ≤ p) : normalizeStep d p seen 0 = ⟨d + 1, 0, (d + 1, 0)⟩ := by
  unfold normalizeStep
  rw [if_pos hp]
  split_ifs with h1 h2
  · rfl
  · exact absurd rfl h2
  · rfl

theorem normalizeStep_of_rollover (d p : ℤ) (seen : List (ℤ × ℤ)) (hour : ℤ)
    (h : hour ≤ p) (hns : (d, hour) ∉ seen) :
    normalizeStep d p seen hour = ⟨d + 1, 0, (d + 1, hour)⟩ := by
  unfold normalizeStep
  rw [if_pos h, if_neg hns]

theorem normalizeStep_of_fold (d p : ℤ) (seen : List (ℤ × ℤ)) (hour : ℤ)
    (hle : hour ≤ p) (hseen : (d, hour) ∈ seen) (hne : hour ≠ 0) :
    normalizeStep d p seen hour = ⟨d, 1, (d, hour)⟩ := by
  unfold normalizeStep
  rw [if_pos hle, if_pos hseen, if_neg hne]

theorem normalizeStep_fold_eq (d p : ℤ) (seen : List (ℤ × ℤ)) (hour : ℤ) :
    (normalizeStep d p seen hour).fold =
      if hour ≤ p ∧ (d, hour) ∈ seen ∧ hour ≠ 0 then 1 else 0 := by
  unfold normalizeStep
  split_ifs with h1 h2 h3 h4 h5 h6 <;> simp_all

theorem normalizeStep_key (d p : ℤ) (seen : List (ℤ × ℤ)) (hour : ℤ) :
    (normalizeStep d p seen hour).key =
      ((normalizeStep d p seen hour).current_date, hour) := by
  unfold normalizeStep
  split_ifs <;> rfl

theorem normStep_prev_hour (st : NormState) (hour : ℤ) :
    (normStep st hour).prev_hour = hour := rfl

theorem normStep_current_date (st : NormState) (hour : ℤ) :
    (normStep st hour).current_date =
      (normalizeStep st.current_date st.prev_hour st.seen_hours hour).current_date := rfl

theorem normStep_seen_hours (st : NormState) (hour : ℤ) :
    (normStep st hour).seen_hours =
      (normalizeStep st.current_date st.prev_hour st.seen_hours hour).key :: st.seen_hours := rfl

theorem emitAt_hour (st : NormState) (tz : String) (hour : ℤ) (line : Line) :
    (emitAt st tz hour line).hour_start.hour = hour := rfl

theorem emitAt_dateOrd (st : NormState) (tz : String) (hour : ℤ) (line : Line) :
    (emitAt st tz hour line).hour_start.dateOrd =
      (normalizeStep st.current_date st.prev_hour st.seen_hours hour).current_date := rfl

theorem emitAt_fold (st : NormState) (tz : String) (hour : ℤ) (line : Line) :
    (emitAt st tz hour line).hour_start.fold = stepFold st hour := rfl

theorem emitAt_usage (st : NormState) (tz : String) (hour : ℤ) (line : Line) :
    (emitAt st tz hour line).usage = int_trunc line.Usage := rfl

theorem emitAt_total (st : NormState) (tz : String) (hour : ℤ) (line : Line) :
    (emitAt st tz hour line).total = int_trunc line.Read := rfl

theorem emitAt_date_eq_normStep (st : NormState) (tz : String) (hour : ℤ) (line : Line) :
    (emitAt st tz hour line).hour_start.dateOrd = (normStep st hour).current_date := rfl

theorem emit_key_mem (st : NormState) (tz : String) (hour : ℤ) (line : Line) :
    ((emitAt st tz hour line).hour_start.dateOrd, hour) ∈ (normStep st hour).seen_hours := by
  rw [emitAt_dateOrd, normStep_seen_hours, ← normalizeStep_key]
  exact List.mem_cons_self _ _

theorem stepFold_eq_one_iff (st : NormState) (hour : ℤ) :
    stepFold st hour = 1 ↔
      hour ≤ st.prev_hour ∧ (st.current_date, hour) ∈ st.seen_hours ∧ hour ≠ 0 := by
  unfold stepFold
  rw [normalizeStep_fold_eq]
  split_ifs with h <;> simp [h]

theorem lineHour?_eq_some {line : Line} {h : ℤ} :
    lineHour? line = some h ↔
      parseHourLabel line.Label = some h ∧ 0 ≤ h ∧ h ≤ 23 := by
  unfold lineHour?
  cases hp : parseHourLabel line.Label with
  | none => simp
  | some h0 =>
    dsimp only
    constructor
    · intro he
      split_ifs at he with hr
      · injection he with he2
        subst he2
        exact ⟨rfl, hr⟩
    · rintro ⟨he, hb⟩
      injection he with he2
      subst he2
      rw [if_pos hb]

theorem lineHour?_bounds {line : Line} {h : ℤ} (hl : lineHour? line = some h) :
    0 ≤ h ∧ h ≤ 23 :=
  (lineHour?_eq_some.mp hl).2

theorem lineHours?_cons {line : Line} {rest : List Line} {hs : List ℤ}
    (hh : lineHours? (line :: rest) = some hs) :
    ∃ h hs0, lineHour? line = some h ∧ lineHours? rest = some hs0 ∧ hs = h :: hs0 := by
  unfold lineHours? at hh
  cases hl : lineHour? line with
  | none => rw [hl] at hh; exact Option.noConfusion hh
  | some h =>
    cases hr : lineHours? rest with
    | none => rw [hl, hr] at hh; exact Option.noConfusion hh
    | some hs0 =>
      rw [hl, hr] at hh
      injection hh with hh2
      exact ⟨h, hs0, rfl, rfl, hh2.symm⟩

theorem lineHours?_length : ∀ {lines : List Line} {hs : List ℤ},
    lineHours? lines = some hs → hs.length = lines.length := by
  intro lines
  induction lines with
  | nil => intro hs hh; injection hh with hh2; subst hh2; rfl
  | cons line rest ih =>
    intro hs hh
    obtain ⟨h, hs0, _, hr, rfl⟩ := lineHours?_cons hh
    simp [ih hr]

theorem lineHours?_getElem : ∀ {lines : List Line} {hs : List ℤ},
    lineHours? lines = some hs →
    ∀ (i : ℕ) (l : Line), lines[i]? = some l →
      ∃ h, hs[i]? = some h ∧ lineHour? l = some h := by
  intro lines
  induction lines with
  | nil => intro hs _ i l hl; simp at hl
  | cons line rest ih =>
    intro hs hh i l hl
    obtain ⟨h, hs0, hline, hr, rfl⟩ := lineHours?_cons hh
    cases i with
    | zero =>
      simp only [List.getElem?_cons_zero] at hl ⊢
      injection hl with hl2
      subst hl2
      exact ⟨h, rfl, hline⟩
    | succ j =>
      simp only [List.getElem?_cons_succ] at hl ⊢
      exact ih hr j l hl

theorem lineHours?_bounds {lines : List Line} {hs : List ℤ}
    (hh : lineHours? lines = some hs) : ∀ h ∈ hs, 0 ≤ h ∧ h ≤ 23 := by
  induction lines generalizing hs with
  | nil => injection hh with hh2; subst hh2; intro h hmem; simp at hmem
  | cons line rest ih =>
    obtain ⟨h0, hs0, hline, hr, rfl⟩ := lineHours?_cons hh
    intro h hmem
    rcases List.mem_cons.mp hmem with rfl | hmem2
    · exact lineHour?_bounds hline
    · exact ih hr h hmem2

theorem linesToMeasurements_eq (tz : String) :
    ∀ (lines : List Line) (hs : List ℤ) (d p : ℤ) (seen : List (ℤ × ℤ)),
      lineHours? lines = some hs →
      linesToMeasurements tz lines d p seen =
        .ok (emitList ⟨d, p, seen⟩ tz hs lines) := by
  intro lines
  induction lines with
  | nil =>
    intro hs d p seen hh
    injection hh with hh2
    subst hh2
    rfl
  | cons line rest ih =>
    intro hs d p seen hh
    obtain ⟨h, hs0, hline, hr, rfl⟩ := lineHours?_cons hh
    obtain ⟨hp, hb⟩ := lineHour?_eq_some.mp hline
    show linesToMeasurements tz (line :: rest) d p seen = _
    unfold linesToMeasurements
    rw [hp]
    dsimp only
    rw [if_pos hb]
    rw [ih hs0 _ _ _ hr]
    rfl

theorem emitList_length (tz : String) :
    ∀ (hs : List ℤ) (lines : List Line) (st : NormState),
      (emitList st tz hs lines).length = min hs.length lines.length := by
  intro hs
  induction hs with
  | nil => intro lines st; cases lines <;> simp [emitList]
  | cons h hs ih =>
    intro lines st
    cases lines with
    | nil => simp [emitList]
    | cons line rest =>
      simp only [emitList, List.length_cons, ih]
      omega

theorem emitList_getElem? (tz : String) :
    ∀ (hs : List ℤ) (lines : List Line) (st : NormState) (i : ℕ)
      (h1 : i < hs.length) (h2 : i < lines.length),
      (emitList st tz hs lines)[i]? =
        some (emitAt (normStates st (hs.take i)) tz (hs.get ⟨i, h1⟩)
          (lines.get ⟨i, h2⟩)) := by
  intro hs
  induction hs with
  | nil => intro lines st i h1; simp at h1
  | cons h hs ih =>
    intro lines st i h1 h2
    cases lines with
    | nil => simp at h2
    | cons line rest =>
      cases i with
      | zero => simp [emitList, normStates]
      | succ j =>
        have hj1 : j < hs.length := by simpa using h1
        have hj2 : j < rest.length := by simpa using h2
        have := ih rest (normStep st h) j hj1 hj2
        simpa [emitList, normStates] using this

theorem normStates_take_succ :
    ∀ (hs : List ℤ) (st : NormState) (i : ℕ) (h1 : i < hs.length),
      normStates st (hs.take (i + 1)) =
        normStep (normStates st (hs.take i)) (hs.get ⟨i, h1⟩) := by
  intro hs
  induction hs with
  | nil => intro st i h1; simp at h1
  | cons h hs ih =>
    intro st i h1
    cases i with
    | zero => rfl
    | succ j =>
      have hj1 : j < hs.length := by simpa using h1
      have := ih (normStep st h) j hj1
      simpa [normStates] using this

theorem linesToMeasurements_ok (tz : String) :
    ∀ (lines : List Line) (d p : ℤ) (seen : List (ℤ × ℤ)) (ms : List Measurement),
      linesToMeasurements tz lines d p seen = .ok ms →
      ∃ hs, lineHours? lines = some hs := by
  intro lines
  induction lines with
  | nil => intro d p seen ms _; exact ⟨[], rfl⟩
  | cons line rest ih =>
    intro d p seen ms hok
    unfold linesToMeasurements at hok
    cases hp : parseHourLabel line.Label with
    | none => rw [hp] at hok; simp at hok
    | some hour =>
      rw [hp] at hok
      dsimp only at hok
      split_ifs at hok with hb
      · cases hrec : linesToMeasurements tz rest
            (normalizeStep d p seen hour).current_date hour
            ((normalizeStep d p seen hour).key :: seen) with
        | error e => rw [hrec] at hok; exact Except.noConfusion hok
        | ok ms0 =>
          obtain ⟨hs0, hh0⟩ := ih _ _ _ _ hrec
          refine ⟨hour :: hs0, ?_⟩
          unfold lineHours?
          rw [lineHour?_eq_some.mpr ⟨hp, hb⟩, hh0]

theorem timeseries_ok (start : PyDateTime) (lines : List Line) (hs : List ℤ)
    (hnaive : start.tzinfo = none) (hhs : lineHours? lines = some hs) :
    meter_usage_lines_to_timeseries start lines =
      .ok (emitList (startState start) ("Europe/London") hs lines) := by
  unfold meter_usage_lines_to_timeseries
  rw [hnaive]
  exact linesToMeasurements_eq _ lines hs start.dateOrd (-1) [] hhs

theorem timeseries_ok_inv (start : PyDateTime) (lines : List Line)
    (ms : List Measurement)
    (hok : meter_usage_lines_to_timeseries start lines = .ok ms) :
    start.tzinfo = none ∧ ∃ hs, lineHours? lines = some hs ∧
      ms = emitList (startState start) ("Europe/London") hs lines := by
  unfold meter_usage_lines_to_timeseries at hok
  by_cases hn : start.tzinfo.isSome
  · rw [if_pos hn] at hok
    exact Except.noConfusion hok
  · have hnone : start.tzinfo = none := Option.not_isSome_iff_eq_none.mp hn
    rw [if_neg hn] at hok
    obtain ⟨hs, hhs⟩ := linesToMeasurements_ok _ _ _ _ _ _ hok
    refine ⟨hnone, hs, hhs, ?_⟩
    have heq := linesToMeasurements_eq ("Europe/London") lines hs start.dateOrd (-1) [] hhs
    rw [heq] at hok
    exact (Except.ok.inj hok).symm

theorem int_trunc_intCast (z : ℤ) : int_trunc (z : ℚ) = z := by
  unfold int_trunc
  split_ifs with h
  · exact Int.floor_intCast z
  · exact Int.ceil_intCast z

theorem int_trunc_mono {q r : ℚ} (h : q ≤ r) : int_trunc q ≤ int_trunc r := by
  unfold int_trunc
  split_ifs with h1 h2 h3
  · exact Int.floor_le_floor h
  · exact absurd (le_trans h1 h) h2
  · have hq : q ≤ 0 := le_of_not_le h1
    have h4 : ⌈q⌉ ≤ 0 := by simpa using Int.ceil_le_ceil hq
    have h5 : (0 : ℤ) ≤ ⌊r⌋ := Int.floor_nonneg.mpr h3
    omega
  · exact Int.ceil_le_ceil h

theorem normStates_chain :
    ∀ (hs : List ℤ) (st : NormState), List.Chain (· < ·) st.prev_hour hs →
      ∀ (i : ℕ) (h1 : i < hs.length),
        (normStates st (hs.take i)).current_date = st.current_date ∧
        (normStates st (hs.take i)).prev_hour < hs.get ⟨i, h1⟩ := by
  intro hs
  induction hs with
  | nil => intro st _ i h1; simp at h1
  | cons h hs ih =>
    intro st hch i h1
    obtain ⟨hlt, hch2⟩ := List.chain_cons.mp hch
    cases i with
    | zero => exact ⟨rfl, hlt⟩
    | succ j =>
      have hj : j < hs.length := by simpa using h1
      have hstep : (normStep st h).current_date = st.current_date := by
        rw [normStep_current_date, normalizeStep_of_lt _ _ _ _ hlt]
      have hch3 : List.Chain (· < ·) (normStep st h).prev_hour hs := by
        rw [normStep_prev_hour]
        exact hch2
      have hrec := ih (normStep st h) hch3 j hj
      have e1 : normStates st ((h :: hs).take (j + 1)) =
          normStates (normStep st h) (hs.take j) := rfl
      exact ⟨by rw [e1, hrec.1, hstep], by rw [e1]; exact hrec.2⟩

theorem chain_lt_of_adjacent :
    ∀ (l : List ℤ) (a : ℤ),
      (∀ x, l.head? = some x → a < x) →
      (∀ (i : ℕ) (hi : i < l.length - 1),
        l.get ⟨i, by omega⟩ < l.get ⟨i + 1, by omega⟩) →
      List.Chain (· < ·) a l := by
  intro l
  induction l with
  | nil => intro a _ _; exact List.Chain.nil
  | cons x l ih =>
    intro a hhead hadj
    refine List.chain_cons.mpr ⟨hhead x rfl, ?_⟩
    apply ih x
    · intro y hy
      cases l with
      | nil => simp at hy
      | cons z l2 =>
        injection hy with hy2
        subst hy2
        have := hadj 0 (by simp)
        simpa using this
    · intro i hi
      have hi2 : i + 1 < (x :: l).length - 1 := by
        simp only [List.length_cons]
        omega
      have := hadj (i + 1) hi2
      simpa using this

theorem generate_statistics_eq (start : PyDateTime) (meter_usage : MeterUsage)
    (initial_reading : ℚ) (ms : List Measurement)
    (hok : meter_usage_lines_to_timeseries start meter_usage.Lines = .ok ms) :
    _generate_statistics_from_meter_usage start meter_usage initial_reading =
      .ok (ms.map fun m =>
        ⟨m.hour_start, (m.usage : ℚ), (m.total : ℚ) - initial_reading⟩) := by
  unfold _generate_statistics_from_meter_usage
  rw [hok]
  rfl

theorem authenticate_sync_head (env : AuthEnv) (s : AuthState) :
    ((_authenticate_sync env s).2.1).head? = some .generatePKCE := by
  unfold _authenticate_sync
  rcases env.authorize_cookies with _ | ⟨t, c⟩
  · rfl
  · dsimp only
    by_cases hsa : env.self_asserted_ok t c = false
    · rw [if_pos hsa]
      rfl
    · rw [if_neg hsa]
      rcases env.confirmed_code t c with _ | code
      · rfl
      · dsimp only
        rcases env.token_exchange code with _ | tok
        · rfl
        · dsimp only
          rcases env.token_refresh tok with _ | tok2
          · rfl
          · dsimp only
            by_cases hss : env.site_session_ok = false
            · rw [if_pos hss]
              rfl
            · rw [if_neg hss]
              rfl

theorem getElem?_some_get {α : Type} {l : List α} {i : ℕ} {a : α}
    (h : l[i]? = some a) : ∃ hi : i < l.length, l.get ⟨i, hi⟩ = a := by
  obtain ⟨hi, he⟩ := List.getElem?_eq_some.mp h
  exact ⟨hi, by simpa using he⟩

/-- C6: `normalize` applied to an empty row sequence returns the empty
sequence for every naive start date, and raises the invalid-input error
whenever the start value carries time-zone information, regardless of the
rows supplied. -/
theorem C6_empty_input_and_aware_start :
    (∀ start : PyDateTime, start.tzinfo = none →
      meter_usage_lines_to_timeseries start [] = .ok []) ∧
    (∀ (start : PyDateTime) (lines : List Line), start.tzinfo ≠ none →
      meter_usage_lines_to_timeseries start lines = .error .startMustBeNaive) := by
  constructor
  · intro start h
    unfold meter_usage_lines_to_timeseries
    rw [h]
    rfl
  · intro start lines h
    unfold meter_usage_lines_to_timeseries
    rw [if_pos (Option.ne_none_iff_isSome.mp h)]

theorem C6_witness :
    meter_usage_lines_to_timeseries ⟨0, none⟩ [] = .ok [] ∧
    meter_usage_lines_to_timeseries ⟨0, some ("Europe/London")⟩ wLinesTri =
      .error .startMustBeNaive :=
  ⟨C6_empty_input_and_aware_start.1 ⟨0, none⟩ rfl,
   C6_empty_input_and_aware_start.2 ⟨0, some ("Europe/London")⟩ wLinesTri
     (Option.some_ne_none _)⟩

/-- C10: for every naive start datetime and list of rows whose labels parse
to valid hours, `normalize` succeeds and returns exactly one measurement
per input row in input order: the output has the input's length and the
i-th output's usage and total are computed from the i-th row. -/
theorem C10_one_measurement_per_row (start : PyDateTime) (lines : List Line)
    (hs : List ℤ) (hnaive : start.tzinfo = none)
    (hhs : lineHours? lines = some hs) :
    ∃ ms, meter_usage_lines_to_timeseries start lines = .ok ms ∧
      ms.length = lines.length ∧
      ∀ (i : ℕ) (l : Line), lines[i]? = some l →
        ∃ m, ms[i]? = some m ∧
          m.usage = int_trunc l.Usage ∧ m.total = int_trunc l.Read := by
  refine ⟨_, timeseries_ok start lines hs hnaive hhs, ?_, ?_⟩
  · rw [emitList_length, lineHours?_length hhs]
    simp
  · intro i l hl
    obtain ⟨hi2, hgl⟩ := getElem?_some_get hl
    have hi1 : i < hs.length := by rw [lineHours?_length hhs]; exact hi2
    rw [emitList_getElem? _ hs lines (startState start) i hi1 hi2]
    exact ⟨_, rfl, by rw [emitAt_usage, hgl], by rw [emitAt_total, hgl]⟩

theorem C10_witness :
    meter_usage_lines_to_timeseries wStart0 wLinesTri = .ok wMsTri ∧
    wMsTri.length = wLinesTri.length := by
  obtain ⟨ms, h1, h2, h3⟩ :=
    C10_one_measurement_per_row wStart0 wLinesTri [0, 1, 2] rfl rfl
  have hms : ms = wMsTri := Except.ok.inj (h1.symm.trans rfl)
  rw [hms] at h1 h2
  exact ⟨h1, h2⟩

/-- C5: every emitted measurement's `usage` and `total` are the integer
truncations toward zero of the corresponding row's raw `Usage` and `Read`,
also for fractional raw values. -/
theorem C5_truncation_toward_zero (start : PyDateTime) (lines : List Line)
    (ms : List Measurement)
    (hok : meter_usage_lines_to_timeseries start lines = .ok ms) :
    ∀ (i : ℕ) (l : Line), lines[i]? = some l →
      ∃ m, ms[i]? = some m ∧
        m.usage = int_trunc l.Usage ∧ m.total = int_trunc l.Read := by
  obtain ⟨hnaive, hs, hhs, rfl⟩ := timeseries_ok_inv start lines ms hok
  intro i l hl
  obtain ⟨hi2, hgl⟩ := getElem?_some_get hl
  have hi1 : i < hs.length := by rw [lineHours?_length hhs]; exact hi2
  rw [emitList_getElem? _ hs lines (startState start) i hi1 hi2]
  exact ⟨_, rfl, by rw [emitAt_usage, hgl], by rw [emitAt_total, hgl]⟩

theorem C5_witness :
    ((emitList (startState ⟨0, none⟩) ("Europe/London") [5]
        [wLineFrac])[0]?.map Measurement.usage = some 3) ∧
    ((emitList (startState ⟨0, none⟩) ("Europe/London") [5]
        [wLineFrac])[0]?.map Measurement.total = some 100) := by
  have hok : meter_usage_lines_to_timeseries ⟨0, none⟩ [wLineFrac] =
      .ok (emitList (startState ⟨0, none⟩) ("Europe/London") [5] [wLineFrac]) :=
    timeseries_ok ⟨0, none⟩ [wLineFrac] [5] rfl rfl
  obtain ⟨m, hm, hu, ht⟩ :=
    C5_truncation_toward_zero ⟨0, none⟩ [wLineFrac] _ hok 0 wLineFrac rfl
  have h37 : int_trunc (37 / 10 : ℚ) = 3 := by
    unfold int_trunc
    rw [if_pos (by norm_num)]
    norm_num [Int.floor_eq_iff]
  have h1009 : int_trunc (1009 / 10 : ℚ) = 100 := by
    unfold int_trunc
    rw [if_pos (by norm_num)]
    norm_num [Int.floor_eq_iff]
  rw [hm]
  constructor
  · simp only [Option.map_some']
    rw [hu]
    exact congrArg some h37
  · simp only [Option.map_some']
    rw [ht]
    exact congrArg some h1009

/-- C3: for every non-empty row sequence whose parsed hour labels are
strictly increasing (including a spring-forward gap), `normalize` emits one
measurement per row whose hour of day equals the parsed label hour and
whose civil date equals the start date for every row, with no synthesized
entry (the output length equals the input length). -/
theorem C3_increasing_hours_same_date (start : PyDateTime) (lines : List Line)
    (hs : List ℤ) (hnaive : start.tzinfo = none) (_hne : lines ≠ [])
    (hhs : lineHours? lines = some hs)
    (hmono : ∀ (i : ℕ) (hi : i < hs.length - 1),
      hs.get ⟨i, by omega⟩ < hs.get ⟨i + 1, by omega⟩) :
    ∃ ms, meter_usage_lines_to_timeseries start lines = .ok ms ∧
      ms.length = lines.length ∧
      ∀ (i : ℕ) (h1 : i < hs.length),
        ∃ m, ms[i]? = some m ∧
          m.hour_start.hour = hs.get ⟨i, h1⟩ ∧
          m.hour_start.dateOrd = start.dateOrd := by
  have hchain : List.Chain (· < ·) (-1 : ℤ) hs := by
    apply chain_lt_of_adjacent hs (-1)
    · intro x hx
      have hxmem : x ∈ hs := List.mem_of_mem_head? hx
      have := (lineHours?_bounds hhs x hxmem).1
      omega
    · exact hmono
  refine ⟨_, timeseries_ok start lines hs hnaive hhs, ?_, ?_⟩
  · rw [emitList_length, lineHours?_length hhs]
    simp
  · intro i h1
    have hlen := lineHours?_length hhs
    have hi2 : i < lines.length := by omega
    rw [emitList_getElem? _ hs lines (startState start) i h1 hi2]
    have hst := normStates_chain hs (startState start) hchain i h1
    refine ⟨_, rfl, emitAt_hour _ _ _ _, ?_⟩
    rw [emitAt_dateOrd,
      normalizeStep_of_lt _ _ _ _ hst.2, hst.1]
    rfl

theorem C3_witness :
    meter_usage_lines_to_timeseries wStart0 wLinesGap = .ok wMsGap ∧
    wMsGap.length = wLinesGap.length := by
  obtain ⟨ms, h1, h2, h3⟩ :=
    C3_increasing_hours_same_date wStart0 wLinesGap [0, 2, 3] rfl
      (List.cons_ne_nil _ _) rfl (by decide)
  have hms : ms = wMsGap := Except.ok.inj (h1.symm.trans rfl)
  rw [hms] at h1 h2
  exact ⟨h1, h2⟩

theorem lineHour?_of_label {line : Line} {lab : String} (h : line.Label = lab) :
    lineHour? line = lineHour? ⟨lab, 0, 0, false, ""⟩ := by
  unfold lineHour? parseHourLabel
  rw [h]

/-- C2: an arrival at hour 0 after a row with hour 23 or another 0:00 is
never emitted as a fold: the civil date advances by exactly one day for the
0:00 row (relative to the previous row's emitted date) and its fold is 0,
both in the 23:00 to 0:00 rollover and in the already-seen 0:00 to 0:00
case. -/
theorem C2_hour_zero_is_rollover (start : PyDateTime) (lines : List Line)
    (ms : List Measurement)
    (hok : meter_usage_lines_to_timeseries start lines = .ok ms)
    (j : ℕ) (a b : Line)
    (ha : lines[j]? = some a) (hb : lines[j + 1]? = some b)
    (hlb : b.Label = "0:00")
    (hla : a.Label = "23:00" ∨ a.Label = "0:00") :
    ∃ m m', ms[j + 1]? = some m ∧ ms[j]? = some m' ∧
      m.hour_start.dateOrd = m'.hour_start.dateOrd + 1 ∧
      m.hour_start.fold = 0 := by
  obtain ⟨hnaive, hs, hhs, rfl⟩ := timeseries_ok_inv start lines ms hok
  obtain ⟨hj2, hga⟩ := getElem?_some_get ha
  obtain ⟨hi2, hgb⟩ := getElem?_some_get hb
  have hlen := lineHours?_length hhs
  have hj1 : j < hs.length := by omega
  have hi1 : j + 1 < hs.length := by omega
  obtain ⟨hb0, hhb0, hlb0⟩ := lineHours?_getElem hhs (j + 1) b hb
  obtain ⟨ha0, hha0, hla0⟩ := lineHours?_getElem hhs j a ha
  have hbv : hb0 = 0 := by
    have h1 := lineHour?_of_label hlb
    have h2 : lineHour? (⟨"0:00", 0, 0, false, ""⟩ : Line) = some 0 := by decide
    rw [h1, h2] at hlb0
    exact (Option.some.inj hlb0).symm
  have hav : ha0 = 23 ∨ ha0 = 0 := by
    rcases hla with h | h
    · left
      have h1 := lineHour?_of_label h
      have h2 : lineHour? (⟨"23:00", 0, 0, false, ""⟩ : Line) = some 23 := by decide
      rw [h1, h2] at hla0
      exact (Option.some.inj hla0).symm
    · right
      have h1 := lineHour?_of_label h
      have h2 : lineHour? (⟨"0:00", 0, 0, false, ""⟩ : Line) = some 0 := by decide
      rw [h1, h2] at hla0
      exact (Option.some.inj hla0).symm
  have hget1 : hs.get ⟨j + 1, hi1⟩ = hb0 := by
    obtain ⟨_, e⟩ := getElem?_some_get hhb0
    exact e
  have hget0 : hs.get ⟨j, hj1⟩ = ha0 := by
    obtain ⟨_, e⟩ := getElem?_some_get hha0
    exact e
  have hsucc := normStates_take_succ hs (startState start) j hj1
  have hprev0 :
      (0 : ℤ) ≤ (normStates (startState start) (hs.take (j + 1))).prev_hour := by
    rw [hsucc, normStep_prev_hour, hget0]
    rcases hav with h | h <;> omega
  have hcur : (normStates (startState start) (hs.take (j + 1))).current_date =
      (emitAt (normStates (startState start) (hs.take j)) ("Europe/London")
        (hs.get ⟨j, hj1⟩) (lines.get ⟨j, hj2⟩)).hour_start.dateOrd := by
    rw [hsucc, emitAt_dateOrd, normStep_current_date]
  rw [emitList_getElem? _ hs lines (startState start) (j + 1) hi1 hi2,
      emitList_getElem? _ hs lines (startState start) j hj1 hj2]
  refine ⟨_, _, rfl, rfl, ?_, ?_⟩
  · rw [emitAt_dateOrd, hget1, hbv, normalizeStep_of_zero _ _ _ hprev0, ← hcur]
  · rw [emitAt_fold]
    unfold stepFold
    rw [hget1, hbv, normalizeStep_of_zero _ _ _ hprev0]

theorem C2_witness :
    ∃ m m', wMsRoll[1]? = some m ∧ wMsRoll[0]? = some m' ∧
      m.hour_start.dateOrd = m'.hour_start.dateOrd + 1 ∧
      m.hour_start.fold = 0 := by
  have hok : meter_usage_lines_to_timeseries wStart0 wLinesRoll = .ok wMsRoll := rfl
  exact C2_hour_zero_is_rollover wStart0 wLinesRoll wMsRoll hok 0
    ⟨"23:00", 1, 200, false, "M"⟩ ⟨"0:00", 1, 205, false, "M"⟩ rfl rfl rfl
    (Or.inl rfl)

theorem C1_counterexample : ¬ C1Statement := by
  intro hcl
  have hok : meter_usage_lines_to_timeseries wStart0 wLinesBack = .ok wMsBack := rfl
  have h :=
    (hcl wStart0 wLinesBack wMsBack hok 2 ⟨⟨0, 1, 1, "Europe/London"⟩, 1, 3⟩
      rfl).2 (by decide)
  exact absurd h (by decide)

/-- C1 (amended): a row is emitted with fold 1 exactly when its parsed hour
`h` satisfies `h ≤ prev_hour`, `(current_date, h)` was already emitted and
`h ≠ 0` (all relative to the loop state reached before the row); otherwise
its fold is 0.  In particular the second of an immediate repeat of an hour
label `h > 0` is emitted with fold 1 and shares the first occurrence's
civil date and hour.  (The first occurrence need not have fold 0 when it is
itself such a repeat, and fold 1 also arises without an immediate repeat,
e.g. labels 1:00, 2:00, 1:00.) -/
theorem C1_fold_characterization (start : PyDateTime) (lines : List Line)
    (hs : List ℤ) (ms : List Measurement)
    (hhs : lineHours? lines = some hs)
    (hok : meter_usage_lines_to_timeseries start lines = .ok ms)
    (i : ℕ) (h : ℤ) (hih : hs[i]? = some h) :
    (∃ m, ms[i]? = some m ∧
      (m.hour_start.fold = 1 ↔
        (h ≤ (normStates (startState start) (hs.take i)).prev_hour ∧
          ((normStates (startState start) (hs.take i)).current_date, h) ∈
            (normStates (startState start) (hs.take i)).seen_hours ∧
          h ≠ 0))) ∧
    (isImmediateRepeat lines i = true →
      ∃ m m', ms[i]? = some m ∧ ms[i - 1]? = some m' ∧
        m.hour_start.fold = 1 ∧
        m.hour_start.dateOrd = m'.hour_start.dateOrd ∧
        m.hour_start.hour = m'.hour_start.hour) := by
  have hnaive := (timeseries_ok_inv start lines ms hok).1
  have hts := timeseries_ok start lines hs hnaive hhs
  rw [hok] at hts
  have hms := Except.ok.inj hts
  subst hms
  obtain ⟨hi1, hgh⟩ := getElem?_some_get hih
  have hlen := lineHours?_length hhs
  have hi2 : i < lines.length := by omega
  constructor
  · rw [emitList_getElem? _ hs lines (startState start) i hi1 hi2]
    refine ⟨_, rfl, ?_⟩
    rw [emitAt_fold, hgh]
    exact stepFold_eq_one_iff _ _
  · intro hrep
    cases i with
    | zero => simp [isImmediateRepeat] at hrep
    | succ j =>
      unfold isImmediateRepeat at hrep
      rw [if_neg (Nat.succ_ne_zero j)] at hrep
      simp only [Nat.add_sub_cancel] at hrep
      cases hla : lines[j]? with
      | none => rw [hla] at hrep; simp at hrep
      | some a =>
        cases hlb : lines[j + 1]? with
        | none => rw [hla, hlb] at hrep; simp at hrep
        | some b =>
          cases hha : lineHour? a with
          | none => rw [hla, hlb] at hrep; dsimp only at hrep; rw [hha] at hrep; simp at hrep
          | some ha0 =>
            cases hhb : lineHour? b with
            | none => rw [hla, hlb] at hrep; dsimp only at hrep; rw [hha, hhb] at hrep; simp at hrep
            | some hb0 =>
              rw [hla, hlb] at hrep
              dsimp only at hrep
              rw [hha, hhb] at hrep
              simp only [Bool.and_eq_true, beq_iff_eq, decide_eq_true_eq] at hrep
              obtain ⟨heq, hpos⟩ := hrep
              obtain ⟨ha1, hsa, hla1⟩ := lineHours?_getElem hhs j a hla
              obtain ⟨hb1, hsb, hlb1⟩ := lineHours?_getElem hhs (j + 1) b hlb
              have e1 : ha0 = ha1 := by
                rw [hha] at hla1
                exact Option.some.inj hla1
              have e2 : hb0 = hb1 := by
                rw [hhb] at hlb1
                exact Option.some.inj hlb1
              have e3 : h = hb1 := by
                rw [hih] at hsb
                exact Option.some.inj hsb
              have hj1 : j < hs.length := by omega
              have hj2 : j < lines.length := by omega
              have hgetj : hs.get ⟨j, hj1⟩ = ha1 := by
                obtain ⟨_, e⟩ := getElem?_some_get hsa
                exact e
              have hsucc := normStates_take_succ hs (startState start) j hj1
              have hprev :
                  (normStates (startState start) (hs.take (j + 1))).prev_hour =
                    ha1 := by
                rw [hsucc, normStep_prev_hour, hgetj]
              have hcur :
                  (normStates (startState start) (hs.take (j + 1))).current_date =
                    (emitAt (normStates (startState start) (hs.take j))
                      ("Europe/London") (hs.get ⟨j, hj1⟩)
                      (lines.get ⟨j, hj2⟩)).hour_start.dateOrd := by
                rw [hsucc, emitAt_dateOrd, normStep_current_date]
              have hle : h ≤
                  (normStates (startState start) (hs.take (j + 1))).prev_hour := by
                rw [hprev]
                omega
              have hne0 : h ≠ 0 := by omega
              have hmem :
                  ((normStates (startState start) (hs.take (j + 1))).current_date,
                    h) ∈
                    (normStates (startState start) (hs.take (j + 1))).seen_hours := by
                rw [hcur, hsucc]
                have hkey := emit_key_mem (normStates (startState start) (hs.take j))
                  ("Europe/London") (hs.get ⟨j, hj1⟩) (lines.get ⟨j, hj2⟩)
                have : h = hs.get ⟨j, hj1⟩ := by rw [hgetj]; omega
                rw [this]
                exact hkey
              rw [emitList_getElem? _ hs lines (startState start) (j + 1) hi1 hi2,
                  show j + 1 - 1 = j from rfl,
                  emitList_getElem? _ hs lines (startState start) j hj1 hj2]
              refine ⟨_, _, rfl, rfl, ?_, ?_, ?_⟩
              · rw [emitAt_fold]
                unfold stepFold
                rw [hgh, normalizeStep_of_fold _ _ _ _ hle hmem hne0]
              · rw [emitAt_dateOrd, hgh, normalizeStep_of_fold _ _ _ _ hle hmem hne0]
                exact hcur
              · rw [emitAt_hour, emitAt_hour, hgh, hgetj]
                omega

theorem C1_amended_witness :
    ∃ m m', wMsDst[2]? = some m ∧ wMsDst[1]? = some m' ∧
      m.hour_start.fold = 1 ∧
      m.hour_start.dateOrd = m'.hour_start.dateOrd ∧
      m.hour_start.hour = m'.hour_start.hour := by
  have hok : meter_usage_lines_to_timeseries wStart0 wLinesDst = .ok wMsDst := rfl
  exact (C1_fold_characterization wStart0 wLinesDst [0, 1, 1, 2] wMsDst rfl hok
    2 1 rfl).2 (by decide)

theorem C4_counterexample : ¬ C4Statement := by
  intro hcl
  have hok : meter_usage_lines_to_timeseries wStart0 wLinesTriple =
      .ok wMsTriple := rfl
  have h :=
    (hcl wStart0 wLinesTriple wMsTriple hok (by decide) 1
      ⟨⟨0, 1, 1, "Europe/London"⟩, 1, 2⟩
      ⟨⟨0, 1, 1, "Europe/London"⟩, 1, 3⟩ rfl rfl).2
  exact absurd h (by decide)

/-- C4 (amended): on any accepted input whose raw cumulative reads do not
decrease, the outputs are non-decreasing in `total`; they are additionally
strictly increasing in wall-clock order (lexicographic civil date, hour,
fold) provided every row either strictly increases the hour, or arrives at
a `(date, hour)` pair not yet emitted, or immediately repeats the previous
hour `h > 0` whose occurrence was emitted with fold 0.  Without that
proviso the order can stall or go backwards, e.g. on labels 1:00, 1:00,
1:00 two identical timestamps are emitted. -/
theorem C4_monotonicity (start : PyDateTime) (lines : List Line)
    (hs : List ℤ) (ms : List Measurement)
    (hhs : lineHours? lines = some hs)
    (hok : meter_usage_lines_to_timeseries start lines = .ok ms)
    (hreads : ∀ (i : ℕ) (hi : i < lines.length - 1),
      (lines.get ⟨i, by omega⟩).Read ≤ (lines.get ⟨i + 1, by omega⟩).Read) :
    (∀ (i : ℕ) (m m' : Measurement), ms[i]? = some m → ms[i + 1]? = some m' →
      m.total ≤ m'.total) ∧
    ((∀ (i : ℕ) (hi : i < hs.length - 1),
      hs.get ⟨i, by omega⟩ < hs.get ⟨i + 1, by omega⟩ ∨
      ((normStates (startState start) (hs.take (i + 1))).current_date,
        hs.get ⟨i + 1, by omega⟩) ∉
        (normStates (startState start) (hs.take (i + 1))).seen_hours ∨
      (hs.get ⟨i + 1, by omega⟩ = hs.get ⟨i, by omega⟩ ∧
        hs.get ⟨i + 1, by omega⟩ ≠ 0 ∧
        stepFold (normStates (startState start) (hs.take i))
          (hs.get ⟨i, by omega⟩) = 0)) →
      ∀ (i : ℕ) (m m' : Measurement), ms[i]? = some m → ms[i + 1]? = some m' →
        hourStartLt m.hour_start m'.hour_start) := by
  have hnaive := (timeseries_ok_inv start lines ms hok).1
  have hts := timeseries_ok start lines hs hnaive hhs
  rw [hok] at hts
  have hms := Except.ok.inj hts
  subst hms
  have hlen := lineHours?_length hhs
  have hlistlen :
      (emitList (startState start) ("Europe/London") hs lines).length =
        lines.length := by
    rw [emitList_length, hlen]
    simp
  constructor
  · intro i m m' hm hm'
    obtain ⟨hei, _⟩ := getElem?_some_get hm'
    have hi2 : i + 1 < lines.length := by omega
    have hi1 : i + 1 < hs.length := by omega
    have hj1 : i < hs.length := by omega
    have hj2 : i < lines.length := by omega
    rw [emitList_getElem? _ hs lines (startState start) i hj1 hj2] at hm
    rw [emitList_getElem? _ hs lines (startState start) (i + 1) hi1 hi2] at hm'
    obtain rfl : m = _ := (Option.some.inj hm).symm
    obtain rfl : m' = _ := (Option.some.inj hm').symm
    rw [emitAt_total, emitAt_total]
    exact int_trunc_mono (hreads i (by omega))
  · intro hwf i m m' hm hm'
    obtain ⟨hei, _⟩ := getElem?_some_get hm'
    have hi2 : i + 1 < lines.length := by omega
    have hi1 : i + 1 < hs.length := by omega
    have hj1 : i < hs.length := by omega
    have hj2 : i < lines.length := by omega
    rw [emitList_getElem? _ hs lines (startState start) i hj1 hj2] at hm
    rw [emitList_getElem? _ hs lines (startState start) (i + 1) hi1 hi2] at hm'
    obtain rfl : m = _ := (Option.some.inj hm).symm
    obtain rfl : m' = _ := (Option.some.inj hm').symm
    have hsucc := normStates_take_succ hs (startState start) i hj1
    have hprevB :
        (normStates (startState start) (hs.take (i + 1))).prev_hour =
          hs.get ⟨i, hj1⟩ := by
      rw [hsucc, normStep_prev_hour]
    have hcurB :
        (normStates (startState start) (hs.take (i + 1))).current_date =
          (emitAt (normStates (startState start) (hs.take i)) ("Europe/London")
            (hs.get ⟨i, hj1⟩) (lines.get ⟨i, hj2⟩)).hour_start.dateOrd := by
      rw [hsucc, emitAt_dateOrd, normStep_current_date]
    unfold hourStartLt
    rcases hwf i (by omega) with hcase | hcase | hcase
    · -- strictly increasing hour: same date, larger hour
      have hgt : (normStates (startState start) (hs.take (i + 1))).prev_hour <
          hs.get ⟨i + 1, hi1⟩ := by
        rw [hprevB]
        exact hcase
      right
      constructor
      · rw [emitAt_dateOrd (normStates (startState start) (hs.take (i + 1))),
          normalizeStep_of_lt _ _ _ _ hgt, ← hcurB]
      · left
        rw [emitAt_hour, emitAt_hour]
        exact hcase
    · -- fresh (date, hour): either in-day increase or rollover
      by_cases hcmp : hs.get ⟨i + 1, hi1⟩ ≤
          (normStates (startState start) (hs.take (i + 1))).prev_hour
      · left
        have e1 : (emitAt (normStates (startState start) (hs.take (i + 1)))
            ("Europe/London") (hs.get ⟨i + 1, hi1⟩)
            (lines.get ⟨i + 1, hi2⟩)).hour_start.dateOrd =
            (normStates (startState start) (hs.take (i + 1))).current_date + 1 := by
          rw [emitAt_dateOrd, normalizeStep_of_rollover _ _ _ _ hcmp hcase]
        rw [e1, hcurB]
        omega
      · right
        push_neg at hcmp
        constructor
        · rw [emitAt_dateOrd (normStates (startState start) (hs.take (i + 1))),
            normalizeStep_of_lt _ _ _ _ hcmp, ← hcurB]
        · left
          rw [emitAt_hour, emitAt_hour, ← hprevB]
          exact hcmp
    · -- immediate repeat with an unambiguous first occurrence: fold 0 then 1
      obtain ⟨heq, hne0, hfold0⟩ := hcase
      have hle : hs.get ⟨i + 1, hi1⟩ ≤
          (normStates (startState start) (hs.take (i + 1))).prev_hour := by
        rw [hprevB]
        exact le_of_eq heq
      have hmem :
          ((normStates (startState start) (hs.take (i + 1))).current_date,
            hs.get ⟨i + 1, hi1⟩) ∈
            (normStates (startState start) (hs.take (i + 1))).seen_hours := by
        rw [hcurB, hsucc, heq]
        exact emit_key_mem _ _ _ _
      right
      refine ⟨?_, Or.inr ⟨?_, ?_⟩⟩
      · rw [emitAt_dateOrd (normStates (startState start) (hs.take (i + 1))),
          normalizeStep_of_fold _ _ _ _ hle hmem hne0, ← hcurB]
      · rw [emitAt_hour, emitAt_hour]
        exact heq.symm
      · rw [emitAt_fold, emitAt_fold]
        unfold stepFold at hfold0 ⊢
        rw [normalizeStep_of_fold _ _ _ _ hle hmem hne0, hfold0]
        exact Nat.zero_lt_one

theorem C4_amended_witness :
    (⟨⟨0, 1, 0, "Europe/London"⟩, 1, 501⟩ : Measurement).total ≤
      (⟨⟨0, 1, 1, "Europe/London"⟩, 1, 502⟩ : Measurement).total ∧
    hourStartLt (⟨0, 1, 0, "Europe/London"⟩ : HourStart)
      ⟨0, 1, 1, "Europe/London"⟩ := by
  have hok : meter_usage_lines_to_timeseries wStart0 wLinesDst = .ok wMsDst := rfl
  have h := C4_monotonicity wStart0 wLinesDst [0, 1, 1, 2] wMsDst rfl hok
    (by decide)
  exact ⟨h.1 1 _ _ rfl rfl, h.2 (by decide) 1 _ _ rfl rfl⟩


theorem generate_statistics_inv (start : PyDateTime) (mu : MeterUsage)
    (b : ℚ) (stats : List StatisticData)
    (hgen : _generate_statistics_from_meter_usage start mu b = .ok stats) :
    ∃ ms, meter_usage_lines_to_timeseries start mu.Lines = .ok ms ∧
      stats = ms.map
        (fun m => ⟨m.hour_start, (m.usage : ℚ), (m.total : ℚ) - b⟩) := by
  unfold _generate_statistics_from_meter_usage at hgen
  cases hts : meter_usage_lines_to_timeseries start mu.Lines with
  | error e => rw [hts] at hgen; simp [Except.map] at hgen
  | ok ms =>
    rw [hts] at hgen
    simp only [Except.map] at hgen
    exact ⟨ms, rfl, (Except.ok.inj hgen).symm⟩

/-- C7: each generated statistics record has `state` equal to the
measurement's incremental usage and `sum` equal to its cumulative total
minus the baseline; concretely, rows (0:00,2,1002), (1:00,3,1005),
(2:00,1,1006) with baseline 1000 yield sums [2, 5, 6], and the single row
(5:00,10,500) yields sum 500 under baseline 0 and sum 100 under
baseline 400. -/
theorem C7_statistics_records :
    (∀ (start : PyDateTime) (mu : MeterUsage) (b : ℚ)
      (stats : List StatisticData),
      _generate_statistics_from_meter_usage start mu b = .ok stats →
      ∃ ms, meter_usage_lines_to_timeseries start mu.Lines = .ok ms ∧
        stats.length = ms.length ∧
        ∀ (i : ℕ) (m : Measurement), ms[i]? = some m →
          stats[i]? = some ⟨m.hour_start, (m.usage : ℚ), (m.total : ℚ) - b⟩) ∧
    ((_generate_statistics_from_meter_usage wStart0 wMuTri 1000).map
      (fun stats => stats.map StatisticData.sum) = .ok [2, 5, 6]) ∧
    ((_generate_statistics_from_meter_usage wStart0 wMuSingle 0).map
      (fun stats => stats.map StatisticData.sum) = .ok [500]) ∧
    ((_generate_statistics_from_meter_usage wStart0 wMuSingle 400).map
      (fun stats => stats.map StatisticData.sum) = .ok [100]) := by
  refine ⟨?_, ?_, ?_, ?_⟩
  · intro start mu b stats hgen
    obtain ⟨ms, hts, rfl⟩ := generate_statistics_inv start mu b stats hgen
    refine ⟨ms, hts, by simp, ?_⟩
    intro i m hm
    rw [List.getElem?_map, hm]
    rfl
  · have h1 : meter_usage_lines_to_timeseries wStart0 wMuTri.Lines =
        .ok [⟨⟨0, 0, 0, "Europe/London"⟩, 2, 1002⟩,
             ⟨⟨0, 1, 0, "Europe/London"⟩, 3, 1005⟩,
             ⟨⟨0, 2, 0, "Europe/London"⟩, 1, 1006⟩] := rfl
    unfold _generate_statistics_from_meter_usage
    rw [h1]
    simp only [Except.map, List.map]
    norm_num
  · have h1 : meter_usage_lines_to_timeseries wStart0 wMuSingle.Lines =
        .ok [⟨⟨0, 5, 0, "Europe/London"⟩, 10, 500⟩] := rfl
    unfold _generate_statistics_from_meter_usage
    rw [h1]
    simp only [Except.map, List.map]
    norm_num
  · have h1 : meter_usage_lines_to_timeseries wStart0 wMuSingle.Lines =
        .ok [⟨⟨0, 5, 0, "Europe/London"⟩, 10, 500⟩] := rfl
    unfold _generate_statistics_from_meter_usage
    rw [h1]
    simp only [Except.map, List.map]
    norm_num

theorem C7_witness :
    meter_usage_lines_to_timeseries wStart0 wMuSingle.Lines =
      .ok [⟨⟨0, 5, 0, "Europe/London"⟩, 10, 500⟩] ∧
    ([(⟨⟨0, 5, 0, "Europe/London"⟩, 10, (500 : ℚ) - 400⟩ : StatisticData)]).length =
      ([(⟨⟨0, 5, 0, "Europe/London"⟩, 10, 500⟩ : Measurement)]).length := by
  obtain ⟨ms, h1, h2, h3⟩ := C7_statistics_records.1 wStart0 wMuSingle 400
    [⟨⟨0, 5, 0, "Europe/London"⟩, 10, (500 : ℚ) - 400⟩] rfl
  have hms : ms = [⟨⟨0, 5, 0, "Europe/London"⟩, 10, 500⟩] :=
    Except.ok.inj (h1.symm.trans rfl)
  rw [hms] at h1 h2
  exact ⟨h1, h2⟩

theorem C8_counterexample : ¬ C8Statement := by
  intro hcl
  have hok : meter_usage_lines_to_timeseries wStart0 wMuSingle.Lines =
      .ok [⟨⟨0, 5, 0, "Europe/London"⟩, 10, 500⟩] := rfl
  have hgen : _generate_statistics_from_meter_usage wStart0 wMuSingle 400 =
      .ok [⟨⟨0, 5, 0, "Europe/London"⟩, 10, (500 : ℚ) - 400⟩] := rfl
  have h :=
    (hcl wStart0 wMuSingle 400 1 _ _ hgen hok 0
      ⟨⟨0, 5, 0, "Europe/London"⟩, 10, 500⟩
      ⟨⟨0, 5, 0, "Europe/London"⟩, (10 : ℚ) * 1, ((500 : ℚ) - 400) * 1⟩
      rfl rfl).2
  norm_num at h

/-- C8 (amended): the cost projection is parallel to the statistics (same
length, same timestamps), with `state` scaled to incrementalUsage times the
unit cost; its `sum` is the baseline-relative sum times the unit cost,
i.e. (cumulativeTotal − baseline) · unitCost, not cumulativeTotal ·
unitCost. -/
theorem C8_cost_projection (start : PyDateTime) (mu : MeterUsage)
    (b cost : ℚ) (stats : List StatisticData)
    (hgen : _generate_statistics_from_meter_usage start mu b = .ok stats) :
    ∃ ms, meter_usage_lines_to_timeseries start mu.Lines = .ok ms ∧
      (cost_statistics stats cost).length = ms.length ∧
      ∀ (i : ℕ) (m : Measurement), ms[i]? = some m →
        (cost_statistics stats cost)[i]? =
          some ⟨m.hour_start, (m.usage : ℚ) * cost,
                ((m.total : ℚ) - b) * cost⟩ := by
  obtain ⟨ms, hts, rfl⟩ := generate_statistics_inv start mu b stats hgen
  refine ⟨ms, hts, by simp [cost_statistics], ?_⟩
  intro i m hm
  unfold cost_statistics
  rw [List.map_map, List.getElem?_map, hm]
  rfl

theorem C8_amended_witness :
    meter_usage_lines_to_timeseries wStart0 wMuSingle.Lines =
      .ok [⟨⟨0, 5, 0, "Europe/London"⟩, 10, 500⟩] ∧
    (cost_statistics [⟨⟨0, 5, 0, "Europe/London"⟩, 10, (500 : ℚ) - 400⟩] 2)[0]? =
      some ⟨⟨0, 5, 0, "Europe/London"⟩, (10 : ℚ) * 2, ((500 : ℚ) - 400) * 2⟩ := by
  obtain ⟨ms, h1, h2, h3⟩ := C8_cost_projection wStart0 wMuSingle 400 2
    [⟨⟨0, 5, 0, "Europe/London"⟩, 10, (500 : ℚ) - 400⟩] rfl
  have hms : ms = [⟨⟨0, 5, 0, "Europe/London"⟩, 10, 500⟩] :=
    Except.ok.inj (h1.symm.trans rfl)
  subst hms
  exact ⟨h1, h3 0 ⟨⟨0, 5, 0, "Europe/London"⟩, 10, 500⟩ rfl⟩

/-- C9: if the SelfAsserted stage (stage 3) rejects the credentials, the
run of `_authenticate_sync` leaves `_authenticated` false, never attempts
the Confirm stage (stage 4), and does not reach the authenticated end; the
next `get_meter_usage` call on the resulting object drives the whole state
machine again, starting from PKCE generation (stage 1). -/
theorem C9_self_asserted_failure (env : AuthEnv) (s : AuthState)
    (hfail : ∀ t c, env.self_asserted_ok t c = false)
    (hnotauth : s._authenticated = false) :
    (_authenticate_sync env s).1._authenticated = false ∧
    (_authenticate_sync env s).2.2 = false ∧
    AuthStage.confirmed ∉ (_authenticate_sync env s).2.1 ∧
    ∀ env2 : AuthEnv,
      get_meter_usage_auth env2 (_authenticate_sync env s).1 =
        _authenticate_sync env2 (_authenticate_sync env s).1 ∧
      ((_authenticate_sync env2 (_authenticate_sync env s).1).2.1).head? =
        some .generatePKCE := by
  have hmain : (_authenticate_sync env s).1._authenticated = false ∧
      (_authenticate_sync env s).2.2 = false ∧
      AuthStage.confirmed ∉ (_authenticate_sync env s).2.1 := by
    unfold _authenticate_sync
    rcases env.authorize_cookies with _ | ⟨t, c⟩
    · refine ⟨hnotauth, rfl, ?_⟩
      show AuthStage.confirmed ∉ [AuthStage.generatePKCE, AuthStage.authorize]
      decide
    · dsimp only
      rw [if_pos (hfail t c)]
      refine ⟨hnotauth, rfl, ?_⟩
      show AuthStage.confirmed ∉
        [AuthStage.generatePKCE, AuthStage.authorize, AuthStage.selfAsserted]
      decide
  refine ⟨hmain.1, hmain.2.1, hmain.2.2, ?_⟩
  intro env2
  constructor
  · unfold get_meter_usage_auth
    rw [hmain.1]
    simp
  · exact authenticate_sync_head env2 _

theorem C9_witness :
    (_authenticate_sync wAuthEnv {}).1._authenticated = false ∧
    (_authenticate_sync wAuthEnv {}).2.2 = false ∧
    AuthStage.confirmed ∉ (_authenticate_sync wAuthEnv {}).2.1 ∧
    get_meter_usage_auth wAuthEnv (_authenticate_sync wAuthEnv {}).1 =
      _authenticate_sync wAuthEnv (_authenticate_sync wAuthEnv {}).1 := by
  have h := C9_self_asserted_failure wAuthEnv {} (fun t c => rfl) rfl
  exact ⟨h.1, h.2.1, h.2.2.1, (h.2.2.2 wAuthEnv).1⟩
